import Mathlib

/-!
# Verification of the ODR-DabMod DPD capture pipeline (`gui/dpd/Capture.py`)

Shallow embedding of the capture–align–normalize–bin pipeline.  Sample values
are modelled as pairs of rationals (complex64 components are finite IEEE-754
single floats, hence rationals); byte streams as lists of naturals; the
amplitude guard's float comparisons (which are false on NaN) as a boolean
order on `Option ℚ` where `none` stands for a non-finite value (NaN).
-/

namespace Capture


/-- A complex sample: (real, imaginary), both exact rationals. -/
abbrev Cplx : Type := ℚ × ℚ

/-- A float scalar that may be NaN (`none`), as produced by `np.median`
on an empty array. -/
abbrev F : Type := Option ℚ

/-- IEEE-754 `<` on possibly-NaN scalars: any comparison with NaN is false. -/
def fLt : F → F → Bool
  | some a, some b => decide (a < b)
  | _, _ => false

/-- Squared magnitude `re² + im²` of a complex sample (`|z|²`). -/
def normSq (z : Cplx) : ℚ := z.1 * z.1 + z.2 * z.2

/-- Complex conjugate. -/
def conjC (z : Cplx) : Cplx := (z.1, -z.2)

/-- Complex multiplication. -/
def cmul (a b : Cplx) : Cplx := (a.1 * b.1 - a.2 * b.2, a.1 * b.2 + a.2 * b.1)

/-- Complex addition. -/
def cadd (a b : Cplx) : Cplx := (a.1 + b.1, a.2 + b.2)

/-- `self.sizeof_sample = 8` (complex floats). -/
def sizeof_sample : ℕ := 8

/-- `self.binning_start = 0.0`. -/
def binning_start : ℚ := 0

/-- `self.binning_end = 1.0`. -/
def binning_end : ℚ := 1

/-- `self.binning_n_bins = 64`. -/
def binning_n_bins : ℕ := 64

/-- `self.binning_n_per_bin = 128`. -/
def binning_n_per_bin : ℕ := 128

/-- `self.target_median = 0.05`. -/
def target_median : ℚ := 1 / 20

/-- `self.median_max = self.target_median * 1.4`. -/
def median_max : ℚ := target_median * (14 / 10)

/-- `self.median_min = self.target_median / 1.4`. -/
def median_min : ℚ := target_median / (14 / 10)

/-- A stored bin entry: one `(tx_sample, rx_sample)` pair. -/
abbrev Pair : Type := Cplx × Cplx

/-- The accumulated-bins state: `self.accumulated_bins`, a list of
`binning_n_bins` (64) per-bin pair sequences (each `np.zeros((0,2))` row
list). -/
abbrev Bins : Type := List (List Pair)

/-- Initial state from `__init__`:
`[np.zeros((0, 2)) for i in range(self.binning_n_bins)]` — 64 empty bins. -/
def initBins : Bins := List.replicate binning_n_bins []

/-- Python slice `xs[:k]` for an integer `k` (negative `k` counts from the
end), as used on `binned_sample_pairs[:num_to_append, ...]`. -/
def pyTake (k : ℤ) (xs : List α) : List α :=
  if 0 ≤ k then xs.take k.toNat else xs.take (xs.length - k.natAbs)

/-- `np.linspace(self.binning_start, self.binning_end, self.binning_n_bins)`:
the 64 evenly spaced edges `i / 63` over `[0, 1]`. -/
def bin_edges : List ℚ :=
  (List.range binning_n_bins).map
    (fun i : ℕ => binning_start + (binning_end - binning_start) * (i : ℚ) / ((binning_n_bins : ℚ) - 1))

/-- `zip(bin_edges, bin_edges[1:])`: the 63 half-open amplitude intervals. -/
def edgePairs : List (ℚ × ℚ) := bin_edges.zip bin_edges.tail

/-- The boolean mask predicate `tx_start < |tx[k]| and |tx[k]| <= tx_end`.
Stated on squared magnitudes: for edges `0 ≤ lo ≤ hi` this is exactly
`lo < |z| ∧ |z| ≤ hi`, since squaring is monotone on nonnegatives. -/
def inBin (lo hi : ℚ) (z : Cplx) : Bool :=
  decide (lo * lo < normSq z) && decide (normSq z ≤ hi * hi)

/-- `txframe[indices]` and `rxframe[indices]` zipped into
`binned_sample_pairs`: the index-ordered subsequence of `(tx[k], rx[k])`
pairs whose TX magnitude falls in `(lo, hi]` (the frames have equal length
at the call site, after alignment). -/
def candidates (lo hi : ℚ) (tx rx : List Cplx) : List Pair :=
  (tx.zip rx).filter (fun p => inBin lo hi p.1)

/-- One iteration of the `_bin_and_accumulate` loop body on bin `i`:
`missing_in_bin = n_per_bin - len(bin)`, `num_to_append = min(missing, len
(cands))`, and `if num_to_append:` append `cands[:num_to_append]`.
`missing_in_bin` and `num_to_append` are Python ints (may be negative),
hence `ℤ` and the Python slice `pyTake`. -/
def binStep (bin : List Pair) (cands : List Pair) : List Pair :=
  let missing : ℤ := (binning_n_per_bin : ℤ) - bin.length
  let num : ℤ := min missing (cands.length : ℤ)
  if num ≠ 0 then bin ++ pyTake num cands else bin

/-- The `for i, (tx_start, tx_end) in enumerate(zip(bin_edges, bin_edges[1:]))`
loop: update bin `i` with `binStep` for each edge pair, leaving bins past the
last edge pair (bin 63) untouched. -/
def accumLoop (tx rx : List Cplx) : List (ℚ × ℚ) → Bins → Bins
  | [], bins => bins
  | _ :: _, [] => []
  | (lo, hi) :: rest, b :: bs =>
      binStep b (candidates lo hi tx rx) :: accumLoop tx rx rest bs

/-- `Capture._bin_and_accumulate(self, txframe, rxframe)`: bin the aligned
samples by TX amplitude and extend the accumulated bins. -/
def bin_and_accumulate (bins : Bins) (tx rx : List Cplx) : Bins :=
  accumLoop tx rx edgePairs bins

/-- `Capture.bin_histogram(self)`: `[b.shape[0] for b in self.accumulated_bins]`. -/
def bin_histogram (bins : Bins) : List ℕ := bins.map List.length

/-- Bin states reachable from the session's initial state by any sequence of
`_bin_and_accumulate` calls. -/
inductive Reachable : Bins → Prop
  | init : Reachable initBins
  | step (tx rx : List Cplx) {s : Bins} : Reachable s → Reachable (bin_and_accumulate s tx rx)

/-- Total number of stored pairs across all bins. -/
def totalCount (s : Bins) : ℕ := (s.map List.length).sum

/-- The per-bin invariants maintained by the session: 64 bins, the last one
(which no edge-interval maps to) always empty, every bin within capacity, and
every stored pair classified by its own bin's amplitude interval. -/
def BinsInv (s : Bins) : Prop :=
  s.length = binning_n_bins ∧ s.getD 63 [] = [] ∧
  ∀ i, ((s.getD i []).length ≤ binning_n_per_bin ∧
        ∀ p ∈ s.getD i [], inBin (bin_edges.getD i 0) (bin_edges.getD (i + 1) 0) p.1 = true)

/-- Zero-padded signed indexing into a sample buffer, used by the linear
cross-correlation: out-of-range samples contribute 0. -/
def sigGet (a : List Cplx) (i : ℤ) : Cplx :=
  if 0 ≤ i ∧ i < (a.length : ℤ) then a.getD i.toNat (0, 0) else (0, 0)

/-- `signal.correlate(a, v)` in the default `full` mode: output length
`len a + len v - 1`, and output index `k` holds
`Σ_j a[j + k - (len v - 1)] * conj(v[j])`. -/
def correlate_full (a v : List Cplx) : List Cplx :=
  (List.range (a.length + v.length - 1)).map fun (k : ℕ) =>
    (List.range v.length).foldr
      (fun (j : ℕ) acc =>
        cadd (cmul (sigGet a ((j : ℤ) + (k : ℤ) - ((v.length : ℤ) - 1)))
          (conjC (v.getD j (0, 0)))) acc)
      (0, 0)

/-- Loop of `np.argmax`: index of the first occurrence of the maximum, with
`best`/`bestv` the current leader and `i` the index of the next element. -/
def argmaxGo (i best : ℕ) (bestv : ℚ) : List ℚ → ℕ
  | [] => best
  | x :: xs => if bestv < x then argmaxGo (i + 1) i x xs else argmaxGo (i + 1) best bestv xs

/-- `np.argmax` over a nonempty list (the empty case never occurs: the call
site raises before). -/
def argmax : List ℚ → ℕ
  | [] => 0
  | x :: xs => argmaxGo 1 0 x xs

/-- Lines 45–59 of `align_samples`: the coarse sample-level alignment.
`c` models `np.abs(signal.correlate(sig_rx, sig_tx))` via squared
magnitudes (the square root is strictly monotone, so the first-maximum index
is the same); an empty correlation output makes `np.argmax` raise
(`ValueError`), modelled as the error case.  `sig[:-off]` for `off ≥ 1` is
`take (length - off)`, `sig[off:]` is `drop off`, `sig[:-1]` is `dropLast`. -/
def coarse_align (sig_tx sig_rx : List Cplx) : Except Unit (List Cplx × List Cplx) :=
  let c := (correlate_full sig_rx sig_tx).map normSq
  if c = [] then .error ()
  else
    let off_meas : ℤ := (argmax c : ℤ) - (sig_tx.length : ℤ) + 1
    let off : ℕ := off_meas.natAbs
    let p :=
      if 0 < off_meas then (sig_tx.take (sig_tx.length - off), sig_rx.drop off)
      else if off_meas < 0 then (sig_tx.drop off, sig_rx.take (sig_rx.length - off))
      else (sig_tx, sig_rx)
    if off % 2 = 1 then .ok (p.1.dropLast, p.2.dropLast) else .ok p

/-- `align_samples(sig_tx, sig_rx)`: coarse alignment followed by the
external fine-alignment collaborators `sa.subsample_align` and
`sa.phase_align` (module `Align`, outside this file's sources; per the spec
they return a corrected RX buffer and preserve buffer length), passed here
as the function parameters `ss` and `ph`. -/
def align_samples (ss ph : List Cplx → List Cplx → List Cplx)
    (sig_tx sig_rx : List Cplx) : Except Unit (List Cplx × List Cplx) :=
  match coarse_align sig_tx sig_rx with
  | .error e => .error e
  | .ok (tx, rx) => .ok (tx, ph (ss rx tx) tx)

/-- A byte received from the TCP stream. -/
abbrev Byte : Type := ℕ

/-- The accumulation loop of `Capture._recv_exact`: `sock.recv(num_bytes)`
on a connection whose peer has already sent the whole remaining `stream`
and will then close returns the first `min num_bytes |stream|` bytes
(`stream.take num_bytes`), empty exactly when the peer has closed; the loop
keeps receiving until `num_bytes` bytes are accumulated or a zero-length
read breaks it, and returns the joined buffers plus the unread stream. -/
def recv_exact_loop (stream : List Byte) (num_bytes : ℕ) (bufs : List Byte) :
    List Byte × List Byte :=
  if num_bytes = 0 then (bufs, stream)
  else if (stream.take num_bytes).length = 0 then (bufs, stream.drop num_bytes)
  else
    recv_exact_loop (stream.drop num_bytes)
      (num_bytes - (stream.take num_bytes).length) (bufs ++ stream.take num_bytes)
termination_by num_bytes
decreasing_by
  simp only [List.length_take] at *
  omega

/-- `Capture._recv_exact(self, sock, num_bytes)`. -/
def recv_exact (stream : List Byte) (num_bytes : ℕ) : List Byte × List Byte :=
  recv_exact_loop stream num_bytes []

/-- Little-endian unsigned 32-bit decode, as `struct.unpack` with the
native (x86, little-endian) integer byte order used by the script. -/
def u32 (b0 b1 b2 b3 : Byte) : ℕ :=
  b0 % 256 + 256 * (b1 % 256) + 65536 * (b2 % 256) + 16777216 * (b3 % 256)

/-- Little-endian encoding of an unsigned 32-bit value (used to build
concrete test streams). -/
def u32enc (n : ℕ) : List Byte :=
  [n % 256, n / 256 % 256, n / 65536 % 256, n / 16777216 % 256]

/-- `struct.unpack("=III", bs)`: three u32 values; raises `struct.error`
unless `bs` is exactly 12 bytes. -/
def unpackIII (bs : List Byte) : Except Unit (ℕ × ℕ × ℕ) :=
  match bs with
  | [a0, a1, a2, a3, b0, b1, b2, b3, c0, c1, c2, c3] =>
      .ok (u32 a0 a1 a2 a3, u32 b0 b1 b2 b3, u32 c0 c1 c2 c3)
  | _ => .error ()

/-- `struct.unpack("=II", bs)`: two u32 values; raises `struct.error`
unless `bs` is exactly 8 bytes. -/
def unpackII (bs : List Byte) : Except Unit (ℕ × ℕ) :=
  match bs with
  | [a0, a1, a2, a3, b0, b1, b2, b3] =>
      .ok (u32 a0 a1 a2 a3, u32 b0 b1 b2 b3)
  | _ => .error ()

/-- IEEE-754 single-precision value of four little-endian bytes; exact for
every finite float.  Non-finite encodings (exponent 255: ±Inf/NaN) have no
rational value and are mapped to 0 — no theorem below depends on the value
of such a sample. -/
def decodeF32 (b0 b1 b2 b3 : Byte) : ℚ :=
  let bits : ℕ := b0 % 256 + 256 * (b1 % 256) + 65536 * (b2 % 256) + 16777216 * (b3 % 256)
  let sign : ℚ := if bits / 2 ^ 31 % 2 = 1 then -1 else 1
  let e : ℕ := bits / 2 ^ 23 % 256
  let m : ℕ := bits % 2 ^ 23
  if e = 0 then sign * ((m : ℚ) * 2) / 2 ^ 150
  else if e = 255 then 0
  else sign * (((2 : ℚ) ^ 23 + (m : ℚ)) * (2 : ℚ) ^ e) / 2 ^ 150

/-- Decode consecutive 8-byte complex64 items (4-byte real then 4-byte
imaginary part); the caller guarantees the byte count is a multiple of 8. -/
def bytesToCplx : List Byte → List Cplx
  | b0 :: b1 :: b2 :: b3 :: b4 :: b5 :: b6 :: b7 :: rest =>
      (decodeF32 b0 b1 b2 b3, decodeF32 b4 b5 b6 b7) :: bytesToCplx rest
  | _ => []

/-- `np.fromstring(bs, dtype=np.complex64)`: raises `ValueError` unless the
byte count is a multiple of the 8-byte item size, else decodes item-wise. -/
def fromstring (bs : List Byte) : Except Unit (List Cplx) :=
  if bs.length % 8 = 0 then .ok (bytesToCplx bs) else .error ()

/-- The decoded result of one capture: TX / RX sample buffers and their
timestamps `second + pps / 16384000.0`. -/
structure Frames where
  txframe : List Cplx
  tx_ts : ℚ
  rxframe : List Cplx
  rx_ts : ℚ
deriving DecidableEq

/-- Exceptions that `receive_tcp` can raise: `struct.error` from a failed
`struct.unpack`, `ValueError` from `np.fromstring`. -/
inductive RxErr
  | structError
  | valueError
deriving DecidableEq

/-- `Capture.receive_tcp(self)` with `num_samples_to_request` already sent:
the peer delivers `stream` and then closes.  The second component records
whether `s.close()` ran before control returned: the method has no
`try/finally`, so `close` is reached only on the fall-through success path,
and every raised exception propagates with the socket still open.  The
DEBUG-level logging block is disabled (default log level).  `num_samps`
is the `=I`-decoded request answer, `sizeof_sample = 8`. -/
def receive_tcp (stream : List Byte) : Except RxErr Frames × Bool :=
  let r1 := recv_exact stream 12
  match unpackIII r1.1 with
  | .error _ => (.error .structError, false)
  | .ok (num_samps, tx_second, tx_pps) =>
    let tx_ts : ℚ := (tx_second : ℚ) + (tx_pps : ℚ) / 16384000
    let tr :=
      if 0 < num_samps then
        let r2 := recv_exact r1.2 (num_samps * sizeof_sample)
        (fromstring r2.1, r2.2)
      else (.ok ([] : List Cplx), r1.2)
    match tr.1 with
    | .error _ => (.error .valueError, false)
    | .ok txframe =>
      let r3 := recv_exact tr.2 8
      match unpackII r3.1 with
      | .error _ => (.error .structError, false)
      | .ok (rx_second, rx_pps) =>
        let rx_ts : ℚ := (rx_second : ℚ) + (rx_pps : ℚ) / 16384000
        let rr :=
          if 0 < num_samps then
            let r4 := recv_exact r3.2 (num_samps * sizeof_sample)
            (fromstring r4.1, r4.2)
          else (.ok ([] : List Cplx), r3.2)
        match rr.1 with
        | .error _ => (.error .valueError, false)
        | .ok rxframe =>
          (.ok ⟨txframe, tx_ts, rxframe, rx_ts⟩, true)

/-- Insertion of one value into an ascending list (helper of `sortQ`). -/
def insortQ (x : ℚ) : List ℚ → List ℚ
  | [] => [x]
  | y :: ys => if x ≤ y then x :: y :: ys else y :: insortQ x ys

/-- Ascending sort of rationals (insertion sort; `np.median` only depends on
the sorted order). -/
def sortQ : List ℚ → List ℚ
  | [] => []
  | x :: xs => insortQ x (sortQ xs)

/-- `np.median` of a rational list: middle element of the sorted list for
odd length, mean of the two middle elements for even length, and NaN
(`none`) for an empty array. -/
def medianQ (l : List ℚ) : F :=
  if l = [] then none
  else
    if l.length % 2 = 1 then some ((sortQ l).getD (l.length / 2) 0)
    else some (((sortQ l).getD (l.length / 2 - 1) 0 + (sortQ l).getD (l.length / 2) 0) / 2)

/-- `np.median(np.abs(frame))`, the magnitude median of a frame.  `np.abs`
of a complex sample is `√(re² + im²)`, irrational in general; this model is
exact for frames of real-valued samples (zero imaginary part, where
`|re + 0i| = |re|`), which covers every concrete stream used below.  The
universally-quantified pipeline theorems depend only on the guard's control
structure and on the NaN median of an empty frame, never on the numeric
median of a complex-valued frame. -/

def medianAbs (frame : List Cplx) : F := medianQ (frame.map (fun z => |z.1|))

/-- Division of a complex sample by a real scalar. -/
def cdiv (z : Cplx) (r : ℚ) : Cplx := (z.1 / r, z.2 / r)

/-- Multiplication of a complex sample by a real scalar. -/
def csmul (z : Cplx) (t : ℚ) : Cplx := (z.1 * t, z.2 * t)

/-- `rxframe / rx_median * tx_median`, element-wise.  Well-defined when both
medians are finite and the RX median is nonzero; otherwise the float code
fills the buffer with non-finite values (NaN/Inf), modelled by the junk
sample `(0, 0)` — no theorem depends on sample values on that path. -/
def rescale (rxframe : List Cplx) (rxm txm : F) : List Cplx :=
  match rxm, txm with
  | some r, some t =>
      if r = 0 then rxframe.map (fun _ => ((0 : ℚ), (0 : ℚ)))
      else rxframe.map (fun z => csmul (cdiv z r) t)
  | _, _ => rxframe.map (fun _ => ((0 : ℚ), (0 : ℚ)))

/-- The two amplitude-guard failures (`ValueError("TX median too
high/low")`), the spec's `AmplitudeError{TooHigh|TooLow}`. -/
inductive AmpErr
  | tooHigh
  | tooLow
deriving DecidableEq

/-- Lines 168–176 of `get_samples` — the spec's NormalizationStage — as a
function of the two magnitude medians: reject a TX median above
`median_max` or below `median_min` (float comparisons: false on NaN),
otherwise rescale RX to the TX amplitude reference. -/
def normalize (txm : F) (rxframe : List Cplx) (rxm : F) :
    Except AmpErr (List Cplx) :=
  if fLt (some median_max) txm then .error .tooHigh
  else if fLt txm (some median_min) then .error .tooLow
  else .ok (rescale rxframe rxm txm)

/-- Pipeline stage markers, recorded in source order by `get_samples`:
protocol capture, normalization (median computation, guard and RX rescale,
lines 168–176), alignment (line 178), bin accumulation (line 180). -/
inductive Ev
  | capture
  | normalize
  | align
  | accumulate
deriving DecidableEq

/-- Exceptions `get_samples` can raise. -/
inductive PipeErr
  | rx (e : RxErr)
  | ampHigh
  | ampLow
  | alignErr
deriving DecidableEq

/-- The success tuple of `get_samples`:
`(txframe_aligned, tx_ts, tx_median, rxframe_aligned, rx_ts, rx_median)`. -/
structure CapResult where
  txframe_aligned : List Cplx
  tx_ts : ℚ
  tx_median : F
  rxframe_aligned : List Cplx
  rx_ts : ℚ
  rx_median : F

/-- `Capture.get_samples(self)`: receive, validate and normalize amplitude,
align, accumulate into the owned bins, and return the result tuple.
Besides the `Except` result it returns the binning state after the call
(unchanged on every error path — the only mutation is the accumulate call),
the socket-closed flag from `receive_tcp`, and the trace of pipeline stages
that ran, in source order. -/
def get_samples (ss ph : List Cplx → List Cplx → List Cplx)
    (stream : List Byte) (bins : Bins) :
    Except PipeErr CapResult × Bins × Bool × List Ev :=
  match receive_tcp stream with
  | (.error e, closed) => (.error (.rx e), bins, closed, [.capture])
  | (.ok f, closed) =>
    let tx_median := medianAbs f.txframe
    if fLt (some median_max) tx_median then
      (.error .ampHigh, bins, closed, [.capture, .normalize])
    else if fLt tx_median (some median_min) then
      (.error .ampLow, bins, closed, [.capture, .normalize])
    else
      let rx_median := medianAbs f.rxframe
      let rxframe2 := rescale f.rxframe rx_median tx_median
      match align_samples ss ph f.txframe rxframe2 with
      | .error _ => (.error .alignErr, bins, closed, [.capture, .normalize, .align])
      | .ok (txA, rxA) =>
        (.ok ⟨txA, f.tx_ts, tx_median, rxA, f.rx_ts, rx_median⟩,
         bin_and_accumulate bins txA rxA, closed,
         [.capture, .normalize, .align, .accumulate])

/-- Modelled from the spec: the fine-alignment collaborators
(`Align.subsample_align`, `Align.phase_align`, outside this file's sources)
return a corrected RX buffer of unchanged length; the identity correction
is the simplest such instance, used for concrete runs. -/
def idAligner : List Cplx → List Cplx → List Cplx := fun rx _tx => rx

/-- The little-endian complex64 bytes of the sample `1/16 + 0i`
(`0x3D800000` = 2⁻⁴ for the real part, `0x00000000` for the imaginary). -/
def sampleBytes116 : List Byte := [0, 0, 128, 61, 0, 0, 0, 0]

/-- A well-formed reply stream announcing one sample with TX = RX = `1/16 + 0i`
and zero timestamps. -/
def stream116 : List Byte :=
  (u32enc 1 ++ u32enc 0 ++ u32enc 0)
    ++ (sampleBytes116 ++ ((u32enc 0 ++ u32enc 0) ++ sampleBytes116))

/-- A reply stream announcing zero samples (empty TX and RX buffers). -/
def streamEmpty : List Byte :=
  (u32enc 0 ++ u32enc 0 ++ u32enc 0) ++ (u32enc 0 ++ u32enc 0)

/-- The crop-and-trim rule exactly as §4.2 of the spec words it, as a
function of the measured signed offset: positive offset drops the last
`off` TX samples and the first `off` RX samples; negative offset drops the
first `|off|` TX samples and the last `|off|` RX samples; zero offset does
not crop; an odd `|off|` additionally drops one trailing sample from both. -/
def specCrop (off_meas : ℤ) (tx rx : List Cplx) : List Cplx × List Cplx :=
  let off : ℕ := off_meas.natAbs
  let p :=
    if 0 < off_meas then (tx.take (tx.length - off), rx.drop off)
    else if off_meas < 0 then (tx.drop off, rx.take (rx.length - off))
    else (tx, rx)
  if off % 2 = 1 then (p.1.dropLast, p.2.dropLast) else p

lemma binStep_eq (bin cands : List Pair) (h : bin.length ≤ binning_n_per_bin) :
    binStep bin cands
      = bin ++ cands.take (min (binning_n_per_bin - bin.length) cands.length) := by
  have hcast : min ((binning_n_per_bin : ℤ) - bin.length) (cands.length : ℤ)
      = ((min (binning_n_per_bin - bin.length) cands.length : ℕ) : ℤ) := by
    simp only [binning_n_per_bin] at h ⊢
    omega
  have hpy : pyTake ((min (binning_n_per_bin - bin.length) cands.length : ℕ) : ℤ) cands
      = cands.take (min (binning_n_per_bin - bin.length) cands.length) := by
    simp [pyTake]
    omega
  by_cases hz : min ((binning_n_per_bin : ℤ) - bin.length) (cands.length : ℤ) = 0
  · have hk : min (binning_n_per_bin - bin.length) cands.length = 0 := by
      simp only [binning_n_per_bin] at h hz ⊢
      omega
    simp [binStep, hz, hk]
  · simp only [binStep, ne_eq]
    rw [if_pos hz, hcast, hpy]

lemma binStep_length_ge (bin cands : List Pair) : bin.length ≤ (binStep bin cands).length := by
  simp only [binStep]
  split <;> simp

lemma accumLoop_length (tx rx : List Cplx) :
    ∀ (ps : List (ℚ × ℚ)) (bins : Bins), (accumLoop tx rx ps bins).length = bins.length
  | [], _ => rfl
  | _ :: _, [] => rfl
  | (_, _) :: rest, b :: bs => by
      simp [accumLoop, accumLoop_length tx rx rest bs]

lemma accumLoop_getD (tx rx : List Cplx) :
    ∀ (ps : List (ℚ × ℚ)) (bins : Bins) (i : ℕ),
      (accumLoop tx rx ps bins).getD i [] =
        if i < ps.length ∧ i < bins.length then
          binStep (bins.getD i [])
            (candidates (ps.getD i (0, 0)).1 (ps.getD i (0, 0)).2 tx rx)
        else bins.getD i []
  | [], bins, i => by simp [accumLoop]
  | _ :: _, [], i => by simp [accumLoop]
  | (lo, hi) :: rest, b :: bs, 0 => by simp [accumLoop]
  | (lo, hi) :: rest, b :: bs, i + 1 => by
      simp only [accumLoop, List.getD_cons_succ, List.length_cons,
        accumLoop_getD tx rx rest bs i]
      by_cases h1 : i < rest.length ∧ i < bs.length
      · rw [if_pos h1, if_pos (by omega)]
      · rw [if_neg h1, if_neg (by omega)]

lemma bin_edges_length : bin_edges.length = 64 := by
  rw [bin_edges, List.length_map, List.length_range, binning_n_bins]

lemma edgePairs_length : edgePairs.length = 63 := by
  rw [edgePairs, List.length_zip, List.length_tail, bin_edges_length]
  omega

lemma edgePairs_getD (i : ℕ) (h : i < 63) :
    edgePairs.getD i (0, 0) = (bin_edges.getD i 0, bin_edges.getD (i + 1) 0) := by
  have hz : i < edgePairs.length := by rw [edgePairs_length]; omega
  have hb : i + 1 < bin_edges.length := by rw [bin_edges_length]; omega
  rw [List.getD_eq_getElem _ _ hz]
  unfold edgePairs at hz ⊢
  rw [List.getElem_zip, List.getElem_tail,
    List.getD_eq_getElem _ _ (by omega), List.getD_eq_getElem _ _ hb]

lemma initBins_getD (i : ℕ) : initBins.getD i [] = [] := by
  rcases lt_or_ge i binning_n_bins with h | h
  · rw [List.getD_eq_getElem _ _ (by simpa [initBins] using h)]
    simp [initBins]
  · exact List.getD_eq_default _ _ (by simpa [initBins] using h)

lemma binsInv_init : BinsInv initBins := by
  refine ⟨by simp [initBins], initBins_getD 63, fun i => ?_⟩
  rw [initBins_getD i]
  simp [binning_n_per_bin]

lemma binsInv_step (tx rx : List Cplx) {s : Bins} (h : BinsInv s) :
    BinsInv (bin_and_accumulate s tx rx) := by
  obtain ⟨hlen, h63, hI⟩ := h
  have hs64 : s.length = 64 := by rw [hlen]; rfl
  have hg := accumLoop_getD tx rx edgePairs s
  refine ⟨?_, ?_, fun i => ?_⟩
  · rw [bin_and_accumulate, accumLoop_length, hlen]
  · rw [bin_and_accumulate, hg 63, if_neg (by rw [edgePairs_length]; omega)]
    exact h63
  · rcases lt_or_ge i 63 with hi | hi
    · rw [bin_and_accumulate, hg i,
        if_pos ⟨by rw [edgePairs_length]; omega, by omega⟩,
        edgePairs_getD i hi, binStep_eq _ _ (hI i).1]
      constructor
      · rw [List.length_append, List.length_take]
        have hb := (hI i).1
        simp only [binning_n_per_bin] at hb ⊢
        omega
      · intro p hp
        rcases List.mem_append.mp hp with hp | hp
        · exact (hI i).2 p hp
        · have hp' := List.take_subset _ _ hp
          exact (List.mem_filter.mp hp').2
    · rw [bin_and_accumulate, hg i, if_neg (by rw [edgePairs_length]; omega)]
      exact hI i

lemma reachable_inv {s : Bins} (h : Reachable s) : BinsInv s := by
  induction h with
  | init => exact binsInv_init
  | step tx rx _ ih => exact binsInv_step tx rx ih

lemma accumulate_getD_char {s : Bins} (h : BinsInv s) (tx rx : List Cplx) (i : ℕ) :
    ∃ k, (bin_and_accumulate s tx rx).getD i []
      = s.getD i [] ++
        (candidates (bin_edges.getD i 0) (bin_edges.getD (i + 1) 0) tx rx).take k := by
  obtain ⟨hlen, h63, hI⟩ := h
  have hs64 : s.length = 64 := by rw [hlen]; rfl
  rcases lt_or_ge i 63 with hi | hi
  · refine ⟨min (binning_n_per_bin - (s.getD i []).length)
      (candidates (bin_edges.getD i 0) (bin_edges.getD (i + 1) 0) tx rx).length, ?_⟩
    rw [bin_and_accumulate, accumLoop_getD tx rx,
      if_pos ⟨by rw [edgePairs_length]; omega, by omega⟩,
      edgePairs_getD i hi, binStep_eq _ _ (hI i).1]
  · refine ⟨0, ?_⟩
    rw [bin_and_accumulate, accumLoop_getD tx rx,
      if_neg (by rw [edgePairs_length]; omega)]
    simp

lemma totalCount_accumLoop_le (tx rx : List Cplx) :
    ∀ (ps : List (ℚ × ℚ)) (bins : Bins),
      totalCount bins ≤ totalCount (accumLoop tx rx ps bins)
  | [], _ => le_rfl
  | _ :: _, [] => le_rfl
  | (_, _) :: rest, b :: bs => by
      simp only [accumLoop, totalCount, List.map_cons, List.sum_cons]
      exact Nat.add_le_add (binStep_length_ge b _) (totalCount_accumLoop_le tx rx rest bs)

lemma totalCount_append (a b : Bins) : totalCount (a ++ b) = totalCount a + totalCount b := by
  simp [totalCount]

lemma totalCount_le_of_inv {s : Bins} (h : BinsInv s) : totalCount s ≤ 63 * 128 := by
  obtain ⟨hlen, h63, hI⟩ := h
  have hs64 : s.length = 64 := by rw [hlen]; rfl
  have hdrop : s.drop 63 = [[]] := by
    rw [List.drop_eq_getElem_cons (by omega), List.drop_eq_nil_of_le (by omega),
      ← List.getD_eq_getElem s [] (by omega), h63]
  have hsum : totalCount (s.take 63) ≤ 63 * 128 := by
    have hbd : ∀ x ∈ (s.take 63).map List.length, x ≤ 128 := by
      intro x hx
      obtain ⟨b, hb, rfl⟩ := List.mem_map.mp hx
      have hbs : b ∈ s := List.take_subset _ _ hb
      obtain ⟨j, hj, hbj⟩ := List.mem_iff_getElem.mp hbs
      have := (hI j).1
      rw [List.getD_eq_getElem s [] hj, hbj] at this
      simpa [binning_n_per_bin] using this
    have hs := List.sum_le_card_nsmul ((s.take 63).map List.length) 128 hbd
    have hl : ((s.take 63).map List.length).length = 63 := by
      simp [hs64]
    rw [hl, smul_eq_mul] at hs
    exact hs
  calc totalCount s = totalCount (s.take 63 ++ s.drop 63) := by
        rw [List.take_append_drop]
    _ = totalCount (s.take 63) + totalCount (s.drop 63) := totalCount_append _ _
    _ ≤ 63 * 128 + 0 := by
        rw [hdrop]
        exact Nat.add_le_add hsum (by simp [totalCount])
    _ = 63 * 128 := by omega

lemma normSq_nonneg (z : Cplx) : 0 ≤ normSq z := by
  unfold normSq
  have h1 := mul_self_nonneg z.1
  have h2 := mul_self_nonneg z.2
  linarith

lemma bin_edges_getD_nonneg (j : ℕ) : 0 ≤ bin_edges.getD j 0 := by
  rcases lt_or_ge j bin_edges.length with h | h
  · rw [List.getD_eq_getElem _ _ h]
    have h' : j < (List.range binning_n_bins).length := by
      simpa [bin_edges] using h
    simp only [bin_edges, List.getElem_map, List.getElem_range]
    simp only [binning_start, binning_end, binning_n_bins]
    norm_num
    positivity
  · rw [List.getD_eq_default _ _ h]

/-- Squared-magnitude comparisons against nonnegative edges express the
interval membership `lo < |z| ≤ hi` exactly. -/
lemma inBin_mag {lo hi : ℚ} {z : Cplx} (hlo : 0 ≤ lo) (hhi : 0 ≤ hi)
    (h : inBin lo hi z = true) :
    (lo : ℝ) < Real.sqrt (normSq z) ∧ Real.sqrt (normSq z) ≤ (hi : ℝ) := by
  have hnz : (0 : ℝ) ≤ ((normSq z : ℚ) : ℝ) := by
    exact_mod_cast normSq_nonneg z
  simp only [inBin, Bool.and_eq_true, decide_eq_true_eq] at h
  obtain ⟨h1, h2⟩ := h
  constructor
  · rw [Real.lt_sqrt (by exact_mod_cast hlo), sq]
    exact_mod_cast h1
  · have h2' : ((normSq z : ℚ) : ℝ) ≤ (hi : ℝ) ^ 2 := by
      rw [sq]
      exact_mod_cast h2
    calc Real.sqrt (normSq z) ≤ Real.sqrt ((hi : ℝ) ^ 2) := Real.sqrt_le_sqrt h2'
      _ = (hi : ℝ) := Real.sqrt_sq (by exact_mod_cast hhi)

lemma argmaxGo_lt (bestv : ℚ) :
    ∀ (l : List ℚ) (i best : ℕ), best < i → argmaxGo i best bestv l < i + l.length
  | [], i, best, h => by simpa [argmaxGo] using h
  | x :: xs, i, best, h => by
      simp only [argmaxGo, List.length_cons]
      split
      · have := argmaxGo_lt x xs (i + 1) i (by omega)
        omega
      · have := argmaxGo_lt bestv xs (i + 1) best (by omega)
        omega

lemma argmax_lt (l : List ℚ) (h : l ≠ []) : argmax l < l.length := by
  match l, h with
  | x :: xs, _ =>
    have h1 := argmaxGo_lt x xs 1 0 (by omega)
    simp only [argmax, List.length_cons]
    omega

lemma recv_exact_loop_eq (n : ℕ) :
    ∀ (stream bufs : List Byte),
      recv_exact_loop stream n bufs = (bufs ++ stream.take n, stream.drop n) := by
  induction n using Nat.strong_induction_on with
  | _ n ih =>
    intro stream bufs
    rw [recv_exact_loop]
    by_cases h0 : n = 0
    · simp [h0]
    · rw [if_neg h0]
      by_cases hb : (stream.take n).length = 0
      · rw [if_pos hb]
        simp only [List.length_eq_zero] at hb
        rw [hb]
        simp
      · rw [if_neg hb]
        have hlen : 0 < (stream.take n).length := Nat.pos_of_ne_zero hb
        rw [ih (n - (stream.take n).length)
          (by simp only [List.length_take] at hlen ⊢; omega)]
        rcases le_or_lt n stream.length with hle | hlt
        · have ht : (stream.take n).length = n := by
            rw [List.length_take]; omega
          simp [ht]
        · have h1 : (stream.take n).length = stream.length := by
            rw [List.length_take]; omega
          have h2 : stream.drop n = [] := List.drop_eq_nil_of_le (by omega)
          have h3 : stream.take n = stream := List.take_of_length_le (by omega)
          rw [h1, h2, h3]
          simp

/-- The net effect of the receive loop on this stream model: the first
`min num_bytes |stream|` bytes are returned (short exactly when the peer
closed early). -/
lemma recv_exact_eq (stream : List Byte) (n : ℕ) :
    recv_exact stream n = (stream.take n, stream.drop n) := by
  rw [recv_exact, recv_exact_loop_eq]
  simp

lemma u32_u32enc (n : ℕ) (h : n < 2 ^ 32) :
    u32 (n % 256) (n / 256 % 256) (n / 65536 % 256) (n / 16777216 % 256) = n := by
  simp only [u32]
  omega

lemma bytesToCplx_length :
    ∀ (bs : List Byte), bs.length % 8 = 0 → (bytesToCplx bs).length = bs.length / 8
  | [], _ => by simp [bytesToCplx]
  | b0 :: b1 :: b2 :: b3 :: b4 :: b5 :: b6 :: b7 :: rest, h => by
      have hr : rest.length % 8 = 0 := by
        simp only [List.length_cons] at h
        omega
      simp only [bytesToCplx, List.length_cons, bytesToCplx_length rest hr]
      omega
  | [_], h => by simp at h
  | [_, _], h => by simp at h
  | [_, _, _], h => by simp at h
  | [_, _, _, _], h => by simp at h
  | [_, _, _, _, _], h => by simp at h
  | [_, _, _, _, _, _], h => by simp at h
  | [_, _, _, _, _, _, _], h => by simp at h

lemma recv_exact_prefix {a : List Byte} (b : List Byte) {n : ℕ}
    (h : a.length = n) : recv_exact (a ++ b) n = (a, b) := by
  rw [recv_exact_eq, List.take_left' h, List.drop_left' h]

lemma unpackIII_short (bs : List Byte) (h : bs.length ≠ 12) :
    unpackIII bs = .error () := by
  rcases bs with _ | ⟨a0, _ | ⟨a1, _ | ⟨a2, _ | ⟨a3, _ | ⟨b0, _ | ⟨b1, _ | ⟨b2, _ |
    ⟨b3, _ | ⟨c0, _ | ⟨c1, _ | ⟨c2, _ | ⟨c3, rest⟩⟩⟩⟩⟩⟩⟩⟩⟩⟩⟩⟩ <;>
    first
      | rfl
      | (cases rest with
          | nil => simp at h
          | cons x xs => rfl)

/-- `receive_tcp` on a well-formed reply stream: 12-byte metadata announcing
`num` samples, a full TX payload, 8-byte RX metadata, and an RX payload of
`k ≤ num` samples after which the peer closes.  The whole RX payload that
arrived is decoded and the call succeeds. -/
lemma receive_tcp_wellformed (num k ts1 ts2 rs1 rs2 : ℕ) (txP rxP : List Byte)
    (hnum : num < 2 ^ 32) (hts1 : ts1 < 2 ^ 32) (hts2 : ts2 < 2 ^ 32)
    (hrs1 : rs1 < 2 ^ 32) (hrs2 : rs2 < 2 ^ 32)
    (hnpos : 0 < num) (hk : k ≤ num)
    (htx : txP.length = num * 8) (hrx : rxP.length = k * 8) :
    receive_tcp ((u32enc num ++ u32enc ts1 ++ u32enc ts2)
        ++ (txP ++ ((u32enc rs1 ++ u32enc rs2) ++ rxP)))
      = (.ok ⟨bytesToCplx txP, (ts1 : ℚ) + (ts2 : ℚ) / 16384000,
             bytesToCplx rxP, (rs1 : ℚ) + (rs2 : ℚ) / 16384000⟩, true) := by
  have h1 : recv_exact ((u32enc num ++ u32enc ts1 ++ u32enc ts2)
        ++ (txP ++ ((u32enc rs1 ++ u32enc rs2) ++ rxP))) 12
      = (u32enc num ++ u32enc ts1 ++ u32enc ts2,
         txP ++ ((u32enc rs1 ++ u32enc rs2) ++ rxP)) :=
    recv_exact_prefix _ (by simp [u32enc])
  have h2 : unpackIII (u32enc num ++ u32enc ts1 ++ u32enc ts2) = .ok (num, ts1, ts2) := by
    simp only [u32enc, List.cons_append, List.nil_append, unpackIII]
    rw [u32_u32enc num hnum, u32_u32enc ts1 hts1, u32_u32enc ts2 hts2]
  have h3 : recv_exact (txP ++ ((u32enc rs1 ++ u32enc rs2) ++ rxP))
        (num * sizeof_sample)
      = (txP, (u32enc rs1 ++ u32enc rs2) ++ rxP) :=
    recv_exact_prefix _ (by simp [sizeof_sample, htx])
  have h4 : fromstring txP = .ok (bytesToCplx txP) := by
    unfold fromstring
    rw [if_pos (by rw [htx]; omega)]
  have h5 : recv_exact ((u32enc rs1 ++ u32enc rs2) ++ rxP) 8
      = (u32enc rs1 ++ u32enc rs2, rxP) :=
    recv_exact_prefix _ (by simp [u32enc])
  have h6 : unpackII (u32enc rs1 ++ u32enc rs2) = .ok (rs1, rs2) := by
    simp only [u32enc, List.cons_append, List.nil_append, unpackII]
    rw [u32_u32enc rs1 hrs1, u32_u32enc rs2 hrs2]
  have h7 : recv_exact rxP (num * sizeof_sample) = (rxP, []) := by
    rw [recv_exact_eq,
      List.take_of_length_le (by rw [hrx, sizeof_sample]; exact Nat.mul_le_mul_right 8 hk),
      List.drop_eq_nil_of_le (by rw [hrx, sizeof_sample]; exact Nat.mul_le_mul_right 8 hk)]
  simp only [receive_tcp, h1, h2, h3, h4, h5, h6, h7, if_pos hnpos]
  unfold fromstring
  rw [if_pos (by rw [hrx]; omega)]

lemma fLt_none_right (a : F) : fLt a none = false := by
  cases a <;> rfl

lemma fLt_none_left (b : F) : fLt none b = false := rfl

lemma medianAbs_nil : medianAbs [] = none := rfl

lemma receive_tcp_empty_reply :
    receive_tcp streamEmpty
      = (.ok ⟨[], ((0 : ℕ) : ℚ) + ((0 : ℕ) : ℚ) / 16384000, [],
             ((0 : ℕ) : ℚ) + ((0 : ℕ) : ℚ) / 16384000⟩, true) := by
  have h1 : recv_exact streamEmpty 12
      = (u32enc 0 ++ u32enc 0 ++ u32enc 0, u32enc 0 ++ u32enc 0) := by
    unfold streamEmpty
    exact recv_exact_prefix _ (by simp [u32enc])
  have h2 : unpackIII (u32enc 0 ++ u32enc 0 ++ u32enc 0) = .ok (0, 0, 0) := by
    simp only [u32enc, List.cons_append, List.nil_append, unpackIII]
    norm_num [u32]
  have h3 : recv_exact (u32enc 0 ++ u32enc 0) 8 = (u32enc 0 ++ u32enc 0, []) := by
    rw [recv_exact_eq, List.take_of_length_le (by simp [u32enc]),
      List.drop_eq_nil_of_le (by simp [u32enc])]
  have h4 : unpackII (u32enc 0 ++ u32enc 0) = .ok (0, 0) := by
    simp only [u32enc, List.cons_append, List.nil_append, unpackII]
    norm_num [u32]
  simp only [receive_tcp, h1, h2, h3, h4, lt_self_iff_false, if_false]

/-- C10: when the server replies with `num_samples == 0`, both decoded
buffers are empty; the median of the empty TX buffer is NaN, both
calibration-band comparisons are false, and `get_samples` proceeds past the
amplitude guard (no amplitude error is raised and the alignment stage is
reached) instead of rejecting the capture. -/
theorem C10_empty_tx_passes_guard (ss ph : List Cplx → List Cplx → List Cplx)
    (stream : List Byte) (bins : Bins) (f : Frames)
    (hrx : receive_tcp stream = (.ok f, true)) (hempty : f.txframe = []) :
    (get_samples ss ph stream bins).1 ≠ .error .ampHigh ∧
    (get_samples ss ph stream bins).1 ≠ .error .ampLow ∧
    Ev.align ∈ (get_samples ss ph stream bins).2.2.2 := by
  have hmed : medianAbs f.txframe = none := by
    rw [hempty, medianAbs_nil]
  simp only [get_samples, hrx, hmed, fLt_none_right, fLt_none_left,
    Bool.false_eq_true, if_false]
  split
  · exact ⟨by simp, by simp, by simp⟩
  · exact ⟨by simp, by simp, by simp⟩

/-- Witness for C10 on the reply stream announcing zero samples. -/
theorem C10_empty_tx_passes_guard_witness :
    (get_samples idAligner idAligner streamEmpty initBins).1 ≠ .error .ampHigh ∧
    (get_samples idAligner idAligner streamEmpty initBins).1 ≠ .error .ampLow ∧
    Ev.align ∈ (get_samples idAligner idAligner streamEmpty initBins).2.2.2 :=
  C10_empty_tx_passes_guard idAligner idAligner streamEmpty initBins
    ⟨[], ((0 : ℕ) : ℚ) + ((0 : ℕ) : ℚ) / 16384000, [],
     ((0 : ℕ) : ℚ) + ((0 : ℕ) : ℚ) / 16384000⟩
    receive_tcp_empty_reply rfl

lemma fLt_band_excl (txm : F) (h : fLt (some median_max) txm = true) :
    fLt txm (some median_min) = false := by
  cases txm with
  | none => rfl
  | some t =>
      simp only [fLt, decide_eq_true_eq, decide_eq_false_iff_not,
        median_max, median_min, target_median] at h ⊢
      intro hc
      norm_num at h hc
      linarith

/-- C5: the normalization stage fails `TooHigh` iff `tx_median > target *
1.4` in the float order (NaN compares false), fails `TooLow` iff
`tx_median < target / 1.4`, and otherwise returns RX scaled element-wise by
`tx_median / rx_median`; and whatever error `get_samples` raises, the
binning state it returns is the unmutated input state. -/
theorem C5_normalization (txm rxm : F) (rxframe : List Cplx) :
    (normalize txm rxframe rxm = .error .tooHigh
        ↔ fLt (some median_max) txm = true) ∧
    (normalize txm rxframe rxm = .error .tooLow
        ↔ fLt txm (some median_min) = true) ∧
    (∀ t r : ℚ, txm = some t → rxm = some r → ¬r = 0 →
        fLt (some median_max) txm = false → fLt txm (some median_min) = false →
        normalize txm rxframe rxm
          = .ok (rxframe.map (fun z => csmul z (t / r)))) ∧
    (∀ (ss ph : List Cplx → List Cplx → List Cplx) (stream : List Byte)
        (bins : Bins) (e : PipeErr),
        (get_samples ss ph stream bins).1 = .error e →
        (get_samples ss ph stream bins).2.1 = bins) := by
  refine ⟨?_, ?_, ?_, ?_⟩
  · by_cases h1 : fLt (some median_max) txm = true
    · simp [normalize, h1]
    · simp only [Bool.not_eq_true] at h1
      by_cases h2 : fLt txm (some median_min) = true
      · simp [normalize, h1, h2]
      · simp only [Bool.not_eq_true] at h2
        simp [normalize, h1, h2]
  · by_cases h1 : fLt (some median_max) txm = true
    · simp [normalize, h1, fLt_band_excl txm h1]
    · simp only [Bool.not_eq_true] at h1
      by_cases h2 : fLt txm (some median_min) = true
      · simp [normalize, h1, h2]
      · simp only [Bool.not_eq_true] at h2
        simp [normalize, h1, h2]
  · intro t r ht hr hr0 hg1 hg2
    subst ht
    subst hr
    have hfun : (fun z : Cplx => csmul (cdiv z r) t)
        = fun z : Cplx => csmul z (t / r) := by
      funext z
      unfold csmul cdiv
      rw [Prod.mk.injEq]
      constructor <;> ring
    simp only [normalize, hg1, hg2, Bool.false_eq_true, if_false, rescale,
      if_neg hr0, hfun]
  · intro ss ph stream bins e
    simp only [get_samples]
    repeat' split
    all_goals intro h
    all_goals first
      | rfl
      | simp at h

/-- Witness for C5 at `tx_median = 1/20`, `rx_median = 1/2`, a one-sample RX
buffer. -/
theorem C5_normalization_witness :
    normalize (some (1 / 20)) [((1 : ℚ), (0 : ℚ))] (some (1 / 2))
      = .ok ([((1 : ℚ), (0 : ℚ))].map (fun z => csmul z ((1 / 20) / (1 / 2)))) :=
  (C5_normalization (some (1 / 20)) (some (1 / 2)) [((1 : ℚ), (0 : ℚ))]).2.2.1
    (1 / 20) (1 / 2) rfl rfl (by norm_num)
    (by simp only [fLt, decide_eq_false_iff_not, median_max, target_median]
        norm_num)
    (by simp only [fLt, decide_eq_false_iff_not, median_min, target_median]
        norm_num)

lemma receive_tcp_closed_eq (stream : List Byte) :
    (receive_tcp stream).2 = (receive_tcp stream).1.isOk := by
  simp only [receive_tcp]
  repeat' split
  all_goals simp [Except.isOk, Except.toBool]

lemma bytesToCplx_sample116 :
    bytesToCplx sampleBytes116 = [((1 : ℚ) / 16, (0 : ℚ))] := by
  norm_num [sampleBytes116, bytesToCplx, decodeF32]

lemma receive_tcp_stream116 :
    receive_tcp stream116
      = (.ok ⟨[((1 : ℚ) / 16, (0 : ℚ))], ((0 : ℕ) : ℚ) + ((0 : ℕ) : ℚ) / 16384000,
             [((1 : ℚ) / 16, (0 : ℚ))], ((0 : ℕ) : ℚ) + ((0 : ℕ) : ℚ) / 16384000⟩,
         true) := by
  have h := receive_tcp_wellformed 1 1 0 0 0 0 sampleBytes116 sampleBytes116
    (by norm_num) (by norm_num) (by norm_num) (by norm_num) (by norm_num)
    (by norm_num) (le_refl 1) (by norm_num [sampleBytes116])
    (by norm_num [sampleBytes116])
  unfold stream116
  rw [h, bytesToCplx_sample116]

lemma medianAbs_single116 :
    medianAbs [((1 : ℚ) / 16, (0 : ℚ))] = some (1 / 16) := by
  have habs : |(1 : ℚ) / 16| = 1 / 16 := abs_of_nonneg (by norm_num)
  simp [medianAbs, medianQ, sortQ, insortQ, habs]

lemma guard116_high : fLt (some median_max) (some ((1 : ℚ) / 16)) = false := by
  simp only [fLt, decide_eq_false_iff_not, median_max, target_median]
  norm_num

lemma guard116_low : fLt (some ((1 : ℚ) / 16)) (some median_min) = false := by
  simp only [fLt, decide_eq_false_iff_not, median_min, target_median]
  norm_num

lemma rescale116 :
    rescale [((1 : ℚ) / 16, (0 : ℚ))] (some (1 / 16)) (some (1 / 16))
      = [((1 : ℚ) / 16, (0 : ℚ))] := by
  norm_num [rescale, csmul, cdiv]

lemma align116 :
    align_samples idAligner idAligner [((1 : ℚ) / 16, (0 : ℚ))]
        [((1 : ℚ) / 16, (0 : ℚ))]
      = .ok ([((1 : ℚ) / 16, (0 : ℚ))], [((1 : ℚ) / 16, (0 : ℚ))]) := by
  have hc : (correlate_full [((1 : ℚ) / 16, (0 : ℚ))]
        [((1 : ℚ) / 16, (0 : ℚ))]).map normSq = [(1 / 65536 : ℚ)] := by
    have hr1 : List.range 1 = [0] := by decide
    simp [correlate_full, sigGet, cmul, cadd, conjC, normSq, hr1]
    norm_num
  simp only [align_samples, coarse_align, hc]
  norm_num [argmax, argmaxGo, idAligner]

lemma get_samples_stream116 :
    get_samples idAligner idAligner stream116 initBins
      = (.ok ⟨[((1 : ℚ) / 16, (0 : ℚ))],
              ((0 : ℕ) : ℚ) + ((0 : ℕ) : ℚ) / 16384000, some (1 / 16),
              [((1 : ℚ) / 16, (0 : ℚ))],
              ((0 : ℕ) : ℚ) + ((0 : ℕ) : ℚ) / 16384000, some (1 / 16)⟩,
         bin_and_accumulate initBins [((1 : ℚ) / 16, (0 : ℚ))]
           [((1 : ℚ) / 16, (0 : ℚ))],
         true, [Ev.capture, Ev.normalize, Ev.align, Ev.accumulate]) := by
  simp only [get_samples, receive_tcp_stream116, medianAbs_single116,
    guard116_high, guard116_low, rescale116, align116, Bool.false_eq_true,
    if_false]

/-- C1 counterexample: a concrete successful capture (one sample of value
`1/16 + 0i` on both frames) whose stage trace is capture → normalize →
align → accumulate: the code normalizes (computes medians and rescales)
BEFORE aligning, so the claimed order capture → align → normalize →
accumulate, with medians computed on aligned buffers, is false. -/
theorem C1_counterexample :
    (get_samples idAligner idAligner stream116 initBins).2.2.2
        = [Ev.capture, Ev.normalize, Ev.align, Ev.accumulate] ∧
    (get_samples idAligner idAligner stream116 initBins).1.isOk = true ∧
    ¬([Ev.capture, Ev.normalize, Ev.align, Ev.accumulate]
        = [Ev.capture, Ev.align, Ev.normalize, Ev.accumulate]) := by
  rw [get_samples_stream116]
  exact ⟨rfl, rfl, by simp⟩

/-- C1 amended: every successful `get_samples` call runs the stages in the
order capture → normalization (median check and RX rescale) → alignment →
bin accumulation, the socket having been closed at the end of the capture
stage, and the returned `tx_median` and `rx_median` are computed on the raw
received buffers (before any alignment). -/
theorem C1_stage_order (ss ph : List Cplx → List Cplx → List Cplx)
    (stream : List Byte) (bins : Bins) (r : CapResult) (bins' : Bins)
    (closed : Bool) (evs : List Ev)
    (h : get_samples ss ph stream bins = (.ok r, bins', closed, evs)) :
    evs = [Ev.capture, Ev.normalize, Ev.align, Ev.accumulate] ∧
    closed = true ∧
    ∃ f : Frames, receive_tcp stream = (.ok f, true) ∧
      r.tx_median = medianAbs f.txframe ∧
      r.rx_median = medianAbs f.rxframe := by
  revert h
  simp only [get_samples]
  split
  · intro h
    exact absurd h (by simp)
  · next f closed2 heq =>
    have hc : closed2 = true := by
      have h2 := receive_tcp_closed_eq stream
      rw [heq] at h2
      simpa [Except.isOk, Except.toBool] using h2
    subst hc
    repeat' split
    all_goals intro h
    any_goals (simp at h; done)
    simp only [Prod.mk.injEq, Except.ok.injEq] at h
    obtain ⟨hr, _, hcl, he⟩ := h
    exact ⟨he.symm, hcl.symm, f, heq, by rw [← hr], by rw [← hr]⟩

/-- Witness for C1 amended on the concrete one-sample capture. -/
theorem C1_stage_order_witness :
    [Ev.capture, Ev.normalize, Ev.align, Ev.accumulate]
        = [Ev.capture, Ev.normalize, Ev.align, Ev.accumulate] ∧
    (true : Bool) = true ∧
    ∃ f : Frames, receive_tcp stream116 = (.ok f, true) ∧
      (⟨[((1 : ℚ) / 16, (0 : ℚ))],
        ((0 : ℕ) : ℚ) + ((0 : ℕ) : ℚ) / 16384000, some (1 / 16),
        [((1 : ℚ) / 16, (0 : ℚ))],
        ((0 : ℕ) : ℚ) + ((0 : ℕ) : ℚ) / 16384000,
        some (1 / 16)⟩ : CapResult).tx_median = medianAbs f.txframe ∧
      (⟨[((1 : ℚ) / 16, (0 : ℚ))],
        ((0 : ℕ) : ℚ) + ((0 : ℕ) : ℚ) / 16384000, some (1 / 16),
        [((1 : ℚ) / 16, (0 : ℚ))],
        ((0 : ℕ) : ℚ) + ((0 : ℕ) : ℚ) / 16384000,
        some (1 / 16)⟩ : CapResult).rx_median = medianAbs f.rxframe :=
  C1_stage_order idAligner idAligner stream116 initBins _
    (bin_and_accumulate initBins [((1 : ℚ) / 16, (0 : ℚ))]
      [((1 : ℚ) / 16, (0 : ℚ))])
    true [Ev.capture, Ev.normalize, Ev.align, Ev.accumulate]
    get_samples_stream116

/-- C7 counterexample: on a capture where the peer closes immediately (empty
reply stream), `receive_tcp` raises a decode error after the connection was
established, and the socket is NOT closed before control returns (second
component `false`), contradicting the claim that every exit path closes it. -/
theorem C7_counterexample : receive_tcp [] = (.error .structError, false) := by
  have h1 : recv_exact [] 12 = ([], []) := by
    rw [recv_exact_eq]
    simp
  simp only [receive_tcp, h1]
  rfl

/-- C7 amended: the socket is closed before returning exactly on the
successful exit path of `receive_tcp`; on every post-connect failure path
(short metadata read, payload or metadata decode error) the exception
propagates without `s.close()` running. -/
theorem C7_socket_closed_iff_success (stream : List Byte) :
    (receive_tcp stream).2 = true ↔ ((receive_tcp stream).1).isOk = true := by
  simp only [receive_tcp]
  repeat' split
  all_goals simp [Except.isOk, Except.toBool]

/-- C2 counterexample: a capture for which the peer closes after delivering
only 1 of the 2 announced RX samples (8 of 16 payload bytes).  `receive_tcp`
returns success, silently yielding a 1-sample RX buffer — it does not fail
with a protocol error as the claim requires. -/
theorem C2_counterexample :
    receive_tcp ((u32enc 2 ++ u32enc 0 ++ u32enc 0)
        ++ (List.replicate 16 0 ++ ((u32enc 0 ++ u32enc 0) ++ List.replicate 8 0)))
      = (.ok ⟨bytesToCplx (List.replicate 16 0),
             ((0 : ℕ) : ℚ) + ((0 : ℕ) : ℚ) / 16384000,
             bytesToCplx (List.replicate 8 0),
             ((0 : ℕ) : ℚ) + ((0 : ℕ) : ℚ) / 16384000⟩, true) ∧
    (bytesToCplx (List.replicate 8 0)).length = 1 := by
  constructor
  · exact receive_tcp_wellformed 2 1 0 0 0 0 _ _ (by norm_num) (by norm_num)
      (by norm_num) (by norm_num) (by norm_num) (by norm_num) (by norm_num)
      (by norm_num [List.length_replicate]) (by norm_num [List.length_replicate])
  · rw [bytesToCplx_length _ (by norm_num [List.length_replicate])]
    norm_num [List.length_replicate]

/-- C2 amended: a peer close before the full payload is delivered is only
partially detected.  A short metadata read fails with a decode error, and a
short TX payload leads to a failure of the subsequent RX-metadata decode
(the stream being exhausted); but a short RX payload whose byte count is a
multiple of the 8-byte sample size is silently accepted, the capture
succeeding with an RX buffer of `k < num_samples` samples. -/
theorem C2_short_payload_reads (num k ts1 ts2 rs1 rs2 : ℕ) (txP rxP : List Byte)
    (hnum : num < 2 ^ 32) (hts1 : ts1 < 2 ^ 32) (hts2 : ts2 < 2 ^ 32)
    (hrs1 : rs1 < 2 ^ 32) (hrs2 : rs2 < 2 ^ 32) (hk : k < num)
    (htx : txP.length = num * 8) (hrx : rxP.length = k * 8) :
    (receive_tcp ((u32enc num ++ u32enc ts1 ++ u32enc ts2)
          ++ (txP ++ ((u32enc rs1 ++ u32enc rs2) ++ rxP)))
        = (.ok ⟨bytesToCplx txP, (ts1 : ℚ) + (ts2 : ℚ) / 16384000,
               bytesToCplx rxP, (rs1 : ℚ) + (rs2 : ℚ) / 16384000⟩, true) ∧
      (bytesToCplx rxP).length = k ∧ ¬k = num) ∧
    (∀ txS : List Byte, txS.length = k * 8 →
        receive_tcp ((u32enc num ++ u32enc ts1 ++ u32enc ts2) ++ txS)
          = (.error .structError, false)) ∧
    (∀ ms : List Byte, ms.length < 12 →
        receive_tcp ms = (.error .structError, false)) := by
  refine ⟨⟨receive_tcp_wellformed num k ts1 ts2 rs1 rs2 txP rxP hnum hts1 hts2
      hrs1 hrs2 (by omega) (by omega) htx hrx, ?_, by omega⟩, ?_, ?_⟩
  · rw [bytesToCplx_length _ (by rw [hrx]; omega), hrx]
    omega
  · intro txS hS
    have h1 : recv_exact ((u32enc num ++ u32enc ts1 ++ u32enc ts2) ++ txS) 12
        = (u32enc num ++ u32enc ts1 ++ u32enc ts2, txS) :=
      recv_exact_prefix _ (by simp [u32enc])
    have h2 : unpackIII (u32enc num ++ u32enc ts1 ++ u32enc ts2)
        = .ok (num, ts1, ts2) := by
      simp only [u32enc, List.cons_append, List.nil_append, unpackIII]
      rw [u32_u32enc num hnum, u32_u32enc ts1 hts1, u32_u32enc ts2 hts2]
    have h3 : recv_exact txS (num * sizeof_sample) = (txS, []) := by
      rw [recv_exact_eq,
        List.take_of_length_le (by simp only [sizeof_sample, hS]; omega),
        List.drop_eq_nil_of_le (by simp only [sizeof_sample, hS]; omega)]
    have h4 : fromstring txS = .ok (bytesToCplx txS) := by
      unfold fromstring
      rw [if_pos (by rw [hS]; omega)]
    have h5 : recv_exact ([] : List Byte) 8 = ([], []) := by
      rw [recv_exact_eq]
      simp
    have h6 : unpackII ([] : List Byte) = .error () := rfl
    simp only [receive_tcp, h1, h2, if_pos (show 0 < num by omega), h3, h4, h5, h6]
  · intro ms hms
    have h1 : recv_exact ms 12 = (ms, []) := by
      rw [recv_exact_eq, List.take_of_length_le (by omega),
        List.drop_eq_nil_of_le (by omega)]
    have h2 : unpackIII ms = .error () := unpackIII_short ms (by omega)
    simp only [receive_tcp, h1, h2]

/-- Witness for C2 amended at `num = 2`, `k = 1`, all-zero payload bytes. -/
theorem C2_short_payload_reads_witness :
    (receive_tcp ((u32enc 2 ++ u32enc 0 ++ u32enc 0)
          ++ (List.replicate 16 0 ++ ((u32enc 0 ++ u32enc 0) ++ List.replicate 8 0)))
        = (.ok ⟨bytesToCplx (List.replicate 16 0),
               ((0 : ℕ) : ℚ) + ((0 : ℕ) : ℚ) / 16384000,
               bytesToCplx (List.replicate 8 0),
               ((0 : ℕ) : ℚ) + ((0 : ℕ) : ℚ) / 16384000⟩, true) ∧
      (bytesToCplx (List.replicate 8 0)).length = 1 ∧ ¬(1 : ℕ) = 2) ∧
    (∀ txS : List Byte, txS.length = 1 * 8 →
        receive_tcp ((u32enc 2 ++ u32enc 0 ++ u32enc 0) ++ txS)
          = (.error .structError, false)) ∧
    (∀ ms : List Byte, ms.length < 12 →
        receive_tcp ms = (.error .structError, false)) :=
  C2_short_payload_reads 2 1 0 0 0 0 (List.replicate 16 0) (List.replicate 8 0)
    (by norm_num) (by norm_num) (by norm_num) (by norm_num) (by norm_num)
    (by norm_num) (by norm_num [List.length_replicate])
    (by norm_num [List.length_replicate])

lemma coarse_align_eq (tx rx : List Cplx)
    (h : ¬((correlate_full rx tx).map normSq = [])) :
    coarse_align tx rx =
      (let c := (correlate_full rx tx).map normSq
       let off_meas : ℤ := (argmax c : ℤ) - (tx.length : ℤ) + 1
       let off : ℕ := off_meas.natAbs
       let p :=
         if 0 < off_meas then (tx.take (tx.length - off), rx.drop off)
         else if off_meas < 0 then (tx.drop off, rx.take (rx.length - off))
         else (tx, rx)
       if off % 2 = 1 then .ok (p.1.dropLast, p.2.dropLast) else .ok p) := by
  simp only [coarse_align]
  rw [if_neg h]

/-- C6: for equal-length, non-empty input buffers, `coarse_align` succeeds
and returns exactly the spec's crop rule applied at the measured offset
`argmax(|correlate(rx, tx)|) - (len tx - 1)`, and the spec crop always
yields two buffers of equal length. -/
theorem C6_coarse_align_spec (tx rx : List Cplx)
    (hlen : tx.length = rx.length) (hne : tx ≠ []) :
    coarse_align tx rx
        = .ok (specCrop
            ((argmax ((correlate_full rx tx).map normSq) : ℤ)
              - (tx.length : ℤ) + 1) tx rx) ∧
    ∀ om : ℤ, (specCrop om tx rx).1.length = (specCrop om tx rx).2.length := by
  constructor
  · have hnpos : 0 < tx.length := List.length_pos.mpr hne
    have hclen : ((correlate_full rx tx).map normSq).length
        = rx.length + tx.length - 1 := by
      simp only [correlate_full, List.length_map, List.length_range]
    have hcne : ¬((correlate_full rx tx).map normSq = []) := by
      intro h0
      rw [h0] at hclen
      simp only [List.length_nil] at hclen
      omega
    rw [coarse_align_eq tx rx hcne]
    simp only [specCrop]
    split <;> rfl
  · intro om
    have key : ∀ (p : List Cplx × List Cplx), p.1.length = p.2.length →
        ((if om.natAbs % 2 = 1 then (p.1.dropLast, p.2.dropLast) else p)).1.length
          = ((if om.natAbs % 2 = 1 then (p.1.dropLast, p.2.dropLast) else p)).2.length := by
      intro p hp
      split <;> simp [List.length_dropLast, hp]
    simp only [specCrop]
    apply key
    by_cases h1 : 0 < om
    · simp only [if_pos h1, List.length_take, List.length_drop]
      omega
    · by_cases h2 : om < 0
      · simp only [if_neg h1, if_pos h2, List.length_take, List.length_drop]
        omega
      · simp only [if_neg h1, if_neg h2]
        exact hlen

/-- Witness for C6 on the singleton buffers `tx = rx = [1 + 0i]`. -/
theorem C6_coarse_align_spec_witness :
    coarse_align [((1 : ℚ), (0 : ℚ))] [((1 : ℚ), (0 : ℚ))]
        = .ok (specCrop
            ((argmax ((correlate_full [((1 : ℚ), (0 : ℚ))]
              [((1 : ℚ), (0 : ℚ))]).map normSq) : ℤ)
              - (([((1 : ℚ), (0 : ℚ))] : List Cplx).length : ℤ) + 1)
            [((1 : ℚ), (0 : ℚ))] [((1 : ℚ), (0 : ℚ))]) ∧
    ∀ om : ℤ, (specCrop om [((1 : ℚ), (0 : ℚ))] [((1 : ℚ), (0 : ℚ))]).1.length
        = (specCrop om [((1 : ℚ), (0 : ℚ))] [((1 : ℚ), (0 : ℚ))]).2.length :=
  C6_coarse_align_spec _ _ rfl (by decide)

/-- C3: in every binning state reachable by a sequence of
`_bin_and_accumulate` calls, no bin's length exceeds `binning_n_per_bin`
(128); one further accumulate call only ever appends (a prefix of the
in-order candidate pairs) to a bin — previously stored pairs are never
removed or reordered —; and a bin already at capacity keeps exactly its
contents and length (overflow idempotence). -/
theorem C3_bin_capacity_invariant (s : Bins) (tx rx : List Cplx) (i : ℕ)
    (h : Reachable s) :
    (s.getD i []).length ≤ binning_n_per_bin ∧
    (∃ k, (bin_and_accumulate s tx rx).getD i []
        = s.getD i [] ++
          (candidates (bin_edges.getD i 0) (bin_edges.getD (i + 1) 0) tx rx).take k) ∧
    ((s.getD i []).length = binning_n_per_bin →
      (bin_and_accumulate s tx rx).getD i [] = s.getD i []) := by
  obtain ⟨hlen, h63, hI⟩ := reachable_inv h
  have hs64 : s.length = 64 := by rw [hlen]; rfl
  refine ⟨(hI i).1, accumulate_getD_char ⟨hlen, h63, hI⟩ tx rx i, fun hful => ?_⟩
  rcases lt_or_ge i 63 with hi | hi
  · rw [bin_and_accumulate, accumLoop_getD tx rx,
      if_pos ⟨by rw [edgePairs_length]; omega, by omega⟩,
      edgePairs_getD i hi, binStep_eq _ _ (hI i).1, hful]
    simp
  · rw [bin_and_accumulate, accumLoop_getD tx rx,
      if_neg (by rw [edgePairs_length]; omega)]

/-- Witness for C3 at the initial state. -/
theorem C3_bin_capacity_invariant_witness :
    (initBins.getD 0 []).length ≤ binning_n_per_bin ∧
    (∃ k, (bin_and_accumulate initBins [] []).getD 0 []
        = initBins.getD 0 [] ++
          (candidates (bin_edges.getD 0 0) (bin_edges.getD 1 0) [] []).take k) ∧
    ((initBins.getD 0 []).length = binning_n_per_bin →
      (bin_and_accumulate initBins [] []).getD 0 [] = initBins.getD 0 []) :=
  C3_bin_capacity_invariant initBins [] [] 0 Reachable.init

/-- C4 counterexample: the binning state created by `__init__` holds
`binning_n_bins = 64` accumulation bins, so `bin_histogram` returns 64
counts, not `bin_count - 1 = 63` as the claim states. -/
theorem C4_counterexample :
    (bin_histogram initBins).length = 64 ∧ ¬(bin_histogram initBins).length = 63 := by
  have h : (bin_histogram initBins).length = 64 := by
    simp [bin_histogram, initBins, binning_n_bins]
  exact ⟨h, by omega⟩

/-- C4 amended: the binning state consists of `binning_n_bins = 64` bins, of
which only the first 63 correspond to the half-open intervals between the 64
bin edges (the last bin is permanently empty), and `bin_histogram` returns
one count per stored bin, i.e. 64 counts. -/
theorem C4_bin_count (s : Bins) (h : Reachable s) :
    s.length = binning_n_bins ∧ (bin_histogram s).length = binning_n_bins ∧
      s.getD 63 [] = [] := by
  obtain ⟨hlen, h63, _⟩ := reachable_inv h
  exact ⟨hlen, by simp [bin_histogram, hlen], h63⟩

/-- Witness for C4 amended at the initial state. -/
theorem C4_bin_count_witness :
    initBins.length = binning_n_bins ∧
    (bin_histogram initBins).length = binning_n_bins ∧
    initBins.getD 63 [] = [] :=
  C4_bin_count initBins Reachable.init

/-- C8: over any reachable binning state, the total number of stored pairs is
bounded by `(binning_n_bins - 1) * binning_n_per_bin = 63 * 128`, and one
further `_bin_and_accumulate` call never decreases it. -/
theorem C8_total_monotone_bounded (s : Bins) (tx rx : List Cplx)
    (h : Reachable s) :
    totalCount s ≤ (binning_n_bins - 1) * binning_n_per_bin ∧
    totalCount s ≤ totalCount (bin_and_accumulate s tx rx) := by
  constructor
  · have hb := totalCount_le_of_inv (reachable_inv h)
    have he : (binning_n_bins - 1) * binning_n_per_bin = 63 * 128 := by
      norm_num [binning_n_bins, binning_n_per_bin]
    rw [he]
    exact hb
  · exact totalCount_accumLoop_le tx rx edgePairs s

/-- Witness for C8 at the initial state. -/
theorem C8_total_monotone_bounded_witness :
    totalCount initBins ≤ (binning_n_bins - 1) * binning_n_per_bin ∧
    totalCount initBins ≤ totalCount (bin_and_accumulate initBins [] []) :=
  C8_total_monotone_bounded initBins [] [] Reachable.init

/-- C9: in every reachable binning state, every stored pair's TX magnitude
lies in its own bin's half-open interval `(edge i, edge (i+1)]` (the stored
TX sample is the one tested at insertion time), and an accumulate call
appends, in original sample-index order, a prefix of the index-ordered
subsequence of `(tx k, rx k)` pairs whose TX magnitude matches the bin's
interval. -/
theorem C9_bin_membership_order (s : Bins) (tx rx : List Cplx) (i : ℕ)
    (h : Reachable s) :
    (∀ p ∈ s.getD i [],
        ((bin_edges.getD i 0 : ℚ) : ℝ) < Real.sqrt (normSq p.1) ∧
        Real.sqrt (normSq p.1) ≤ ((bin_edges.getD (i + 1) 0 : ℚ) : ℝ)) ∧
    (∃ k, (bin_and_accumulate s tx rx).getD i []
        = s.getD i [] ++
          ((tx.zip rx).filter
            (fun p => inBin (bin_edges.getD i 0) (bin_edges.getD (i + 1) 0) p.1)).take k) := by
  have hinv := reachable_inv h
  constructor
  · intro p hp
    exact inBin_mag (bin_edges_getD_nonneg i) (bin_edges_getD_nonneg (i + 1))
      ((hinv.2.2 i).2 p hp)
  · simpa [candidates] using accumulate_getD_char hinv tx rx i

/-- Witness for C9 at the initial state. -/
theorem C9_bin_membership_order_witness :
    (∀ p ∈ initBins.getD 0 [],
        ((bin_edges.getD 0 0 : ℚ) : ℝ) < Real.sqrt (normSq p.1) ∧
        Real.sqrt (normSq p.1) ≤ ((bin_edges.getD 1 0 : ℚ) : ℝ)) ∧
    (∃ k, (bin_and_accumulate initBins [] []).getD 0 []
        = initBins.getD 0 [] ++
          (([] : List Cplx).zip ([] : List Cplx) |>.filter
            (fun p => inBin (bin_edges.getD 0 0) (bin_edges.getD 1 0) p.1)).take k) :=
  C9_bin_membership_order initBins [] [] 0 Reachable.init

end Capture
